import Mathlib

set_option maxHeartbeats 1600000
set_option maxRecDepth 20000
set_option exponentiation.threshold 1024

deriving instance DecidableEq for Except

/-! Shallow embedding of the DectrisTools computation kernel
(`DectrisTools/lib/computation.c`, together with the historical revision of
the same module that exposes `normed_stack`).  Machine integers are modelled
as `Nat` with an explicit reduction `% 2 ^ w` wherever the C code can
overflow.  IEEE-754 binary32 values are modelled exactly: every finite
binary32 value is an integer multiple of `2 ^ (-149)` (the subnormal step),
so a finite float is represented as that integer — the value scaled by
`2 ^ 149` — and every operation performs the exact computation followed by
an explicit round-to-nearest, ties-to-even step; `none` marks a non-finite
outcome.  Fallible paths return `Except`. -/

/-- Values of a binary32 float: `some n` is the finite value `n / 2 ^ 149`
(an exact point of the binary32 grid), `none` stands for a non-finite
outcome (overflow to an infinity, or division of a finite value by zero). -/
abbrev F32 := Option ℤ

/-- Rational value denoted by a finite binary32 value. -/
def F32.toRat : F32 → Option ℚ
  | some n => some ((n : ℚ) / 2 ^ 149)
  | none => none

/-- Floor of the base-2 logarithm of `n`, computed by structural recursion on
an explicit fuel argument so that the kernel can evaluate it; correct
whenever `n < 2 ^ fuel`. -/
def log2fuel : Nat → Nat → Nat
  | 0, _ => 0
  | fuel + 1, n => if n < 2 then 0 else log2fuel fuel (n / 2) + 1

/-- Floor of the base-2 logarithm with enough fuel for every magnitude a
binary32 computation in this development ever inspects (all arguments stay
below `2 ^ 310`). -/
def natLog2 (n : Nat) : Nat := log2fuel 310 n

/-- Round `n` to the nearest multiple of `2 ^ shift`, ties to the even
multiple. -/
def roundToMultiple (n shift : Nat) : Nat :=
  let s := 2 ^ shift
  let q := n / s
  let r := n % s
  if 2 * r < s then q * s
  else if s < 2 * r then (q + 1) * s
  else (if q % 2 = 0 then q * s else (q + 1) * s)

/-- Round the fraction `a / b` (with `b ≠ 0`) to the nearest natural number,
ties to even. -/
def rdivNearest (a b : Nat) : Nat :=
  let q := a / b
  let r := a % b
  if 2 * r < b then q
  else if b < 2 * r then q + 1
  else (if q % 2 = 0 then q else q + 1)

/-- Round an exact dyadic value (given scaled by `2 ^ 149`, as produced by an
exact binary32 addition) to the binary32 grid: round to nearest, ties to
even, `none` on overflow to an infinity.  The grid step at magnitude
`2 ^ e ≤ |v| < 2 ^ (e + 1)` is `2 ^ (e - 23)`, clamped at the subnormal step
`2 ^ (-149)`; in scaled units the step is `2 ^ (max (e - 23) (-149) + 149)`,
i.e. `2 ^ (max (L - 23) 0)` for `L` the scaled magnitude's log.  Overflow:
every rounded magnitude of at least `2 ^ 128` (scaled: `2 ^ 277`) is an
infinity. -/
def round32 (z : ℤ) : F32 :=
  if z = 0 then some 0
  else
    let n := z.natAbs
    let shift := max (natLog2 n) 23 - 23
    let r := roundToMultiple n shift
    if r < 2 ^ 277 then (if z < 0 then some (-(r : ℤ)) else some ((r : ℤ))) else none

/-- Binary32 addition: add exactly (the operands share the scale `2 ^ 149`),
then round. -/
def fadd : F32 → F32 → F32
  | some a, some b => round32 (a + b)
  | _, _ => none

/-- Floor of the base-2 logarithm of the positive fraction `a / b`: the
difference of the operand logs, corrected by one exact comparison. -/
def floorLog2Ratio (a b : Nat) : ℤ :=
  let d : ℤ := (natLog2 a : ℤ) - (natLog2 b : ℤ)
  if 0 ≤ d then (if 2 ^ d.toNat * b ≤ a then d else d - 1)
  else (if b ≤ a * 2 ^ (-d).toNat then d else d - 1)

/-- Round the positive fraction `a / b` (with `a, b ≥ 1`) to the binary32
grid and return it scaled by `2 ^ 149`: the grid exponent is
`max (⌊log2 (a / b)⌋ - 23) (-149)`, and the mantissa is the fraction divided
by the grid step, rounded to nearest, ties to even. -/
def fdivAux (a b : Nat) : F32 :=
  let e := floorLog2Ratio a b
  let g : ℤ := max (e - 23) (-149)
  let m := if 0 ≤ g then rdivNearest a (b * 2 ^ g.toNat)
    else rdivNearest (a * 2 ^ (-g).toNat) b
  if m * 2 ^ (g + 149).toNat < 2 ^ 277 then some ((m : ℤ) * 2 ^ (g + 149).toNat) else none

/-- Binary32 division: divide exactly, then round; a zero divisor yields a
non-finite result (an infinity or NaN), i.e. `none`.  The scale `2 ^ 149`
cancels in the quotient. -/
def fdiv : F32 → F32 → F32
  | some a, some b =>
    if b = 0 then none
    else if a = 0 then some 0
    else
      let r := fdivAux a.natAbs b.natAbs
      if (a < 0 ↔ b < 0) then r else r.map (fun n => -n)
  | _, _ => none

/-- Conversion of a C `int` (here always the promotion of a `npy_uint16`
pixel) to binary32, which rounds to nearest (exact below `2 ^ 24`). -/
def u16ToF32 (n : Nat) : F32 := round32 ((n : ℤ) * 2 ^ 149)

/-- Python exception classes raised by the kernel (`PyErr_SetString`). -/
inductive PyErr : Type
  | indexError (msg : String)
  | runtimeError (msg : String)
  | typeError (msg : String)
deriving DecidableEq

/-- Element type and payload of a numpy array object, as inspected by
`PyArray_TYPE` and read through `PyArray_AsCArray`.  Data is kept flat in C
order; `[i][j][k]` access on a `(N, H, W)` array is the strided read
`data[i*H*W + j*W + k]`. -/
inductive Payload : Type
  | u16 (data : List Nat)
  | f32 (data : List F32)
  | other
deriving DecidableEq

/-- A numpy array object: a shape (so `ndim = shape.length`) plus a typed
flat payload. -/
structure NDArray : Type where
  shape : List Nat
  payload : Payload
deriving DecidableEq

def NDArray.ndim (a : NDArray) : Nat := a.shape.length

def NDArray.isU16 (a : NDArray) : Bool :=
  match a.payload with
  | .u16 _ => true
  | _ => false

def NDArray.isF32 (a : NDArray) : Bool :=
  match a.payload with
  | .f32 _ => true
  | _ => false

/-- Flat uint16 payload (empty for other dtypes; only read after the dtype
check succeeded). -/
def NDArray.u16data (a : NDArray) : List Nat :=
  match a.payload with
  | .u16 d => d
  | _ => []

/-- Flat float32 payload (empty for other dtypes). -/
def NDArray.f32data (a : NDArray) : List F32 :=
  match a.payload with
  | .f32 d => d
  | _ => []

/-- Result of one kernel call: the returned value or the raised exception,
together with whether the output buffer had been allocated when the call
finished (`PyArray_Zeros` / `PyArray_Empty` reached). -/
structure Run (α : Type) : Type where
  result : Except PyErr α
  allocated : Bool

/-- Allocation of the output buffer by `PyArray_Zeros` for a uint64 buffer:
the previous memory contents `mem` are overwritten with zeros. -/
def allocZerosU64 (_mem : Nat → Nat) : Nat → Nat := fun _ => 0

/-- Allocation of the output buffer by `PyArray_Zeros` for a float32 buffer:
the previous memory contents are overwritten with zeros. -/
def allocZerosF32 {γ : Type} (_mem : γ → F32) : γ → F32 := fun _ => some 0

/-- Allocation of the output buffer by `PyArray_Empty` for a float32 buffer:
the memory is NOT initialised, the buffer starts out holding whatever
garbage `mem` was there. -/
def allocEmptyF32 {γ : Type} (mem : γ → F32) : γ → F32 := mem

/-- Concatenation of a list of lists (used to flatten the index space of the
nested loops into one list traversed in loop order). -/
def joinL {α : Type} : List (List α) → List α
  | [] => []
  | l :: ls => l ++ joinL ls

/-- The index triples `(i, j, k)` visited by the three nested loops
`for i < N, for j < H, for k < W`, in visiting order. -/
def idx3 (N H W : Nat) : List (Nat × Nat × Nat) :=
  joinL ((List.range N).map fun i =>
    joinL ((List.range H).map fun j =>
      (List.range W).map fun k => (i, j, k)))

/-- The read `images[i][j][k]` on a `(N, H, W)` C-contiguous uint16 array
with flat data `d`. -/
def pix3 (d : List Nat) (H W i j k : Nat) : Nat :=
  d.getD (i * (H * W) + j * W + k) 0

/-- The read `mask[j][k]` on a `(H, W)` C-contiguous uint16 array with flat
data `m`. -/
def mask2 (m : List Nat) (W j k : Nat) : Nat :=
  m.getD (j * W + k) 0

/-- Sequential accumulation over a list of index triples: at each visited
triple `t` the buffer cell `cell t` is replaced using the update function
`f` applied to the cell's current value.  Every loop body of the kernel is
an instance of this scheme. -/
def accLoop {γ α : Type} [DecidableEq γ] (cell : Nat × Nat × Nat → γ)
    (f : α → Nat × Nat × Nat → α) (l : List (Nat × Nat × Nat)) (buf : γ → α) : γ → α :=
  l.foldl (fun b t => Function.update b (cell t) (f (b (cell t)) t)) buf

/-- The loop body of `masked_histogram` (`if (mask[j][k] == 1)
histogram[images[i][j][k]]++;`) as a sequential fold.  The increment wraps
at 64 bits (`npy_uint64` bins).  The inner `if … < 65536` makes the buffer
indexing explicit: the C code indexes a 65536-bin buffer with the pixel
value unchecked, so an out-of-range pixel would be an out-of-bounds write,
modelled by `none`. -/
def histLoop (d m : List Nat) (N H W : Nat) (buf : Nat → Nat) : Option (Nat → Nat) :=
  (idx3 N H W).foldl
    (fun ob t => ob.bind fun b =>
      if mask2 m W t.2.1 t.2.2 = 1 then
        if pix3 d H W t.1 t.2.1 t.2.2 < 65536 then
          some (Function.update b (pix3 d H W t.1 t.2.1 t.2.2)
            ((b (pix3 d H W t.1 t.2.1 t.2.2) + 1) % 2 ^ 64))
        else none
      else some b)
    (some buf)

/-- The C expression `images[i][j][k] * mask[j][k]`, where both operands are
`npy_uint16` promoted to (32-bit signed) `int`, the product is taken in
`int` — wrapping to a negative value when it reaches `2 ^ 31`, the
behaviour produced by two's-complement arithmetic — and the result is then
converted to `npy_uint64` for the `+=` (reduction modulo `2 ^ 64`, which
sign-extends a negative `int`). -/
def cMulWrap (a b : Nat) : Nat :=
  let p := a * b
  if p < 2 ^ 31 then p else 2 ^ 64 - (2 ^ 32 - p)

/-- The loop body of `masked_sum` (`sum[i] += images[i][j][k] * mask[j][k];`)
as a sequential fold; the accumulator is `npy_uint64`, hence the `% 2 ^ 64`. -/
def sumLoop (d m : List Nat) (N H W : Nat) (buf : Nat → Nat) : Nat → Nat :=
  accLoop (fun t => t.1)
    (fun a t => (a + cMulWrap (pix3 d H W t.1 t.2.1 t.2.2) (mask2 m W t.2.1 t.2.2)) % 2 ^ 64)
    (idx3 N H W) buf

/-- The loop body of `normed_sum`
(`sum_img[j][k] += images[i][j][k] / norm_values[i];`) as a sequential fold
over float32 cells. -/
def normedLoop (d : List Nat) (nv : List F32) (N H W : Nat)
    (buf : Nat × Nat → F32) : Nat × Nat → F32 :=
  accLoop (fun t => (t.2.1, t.2.2))
    (fun a t => fadd a (fdiv (u16ToF32 (pix3 d H W t.1 t.2.1 t.2.2)) (nv.getD t.1 none)))
    (idx3 N H W) buf

/-- The loop body of the historical `normed_stack`
(`normed_images[i][j][k] += images[i][j][k] / norm_values[i];`): note the
`+=` — the accumulation starts from the buffer contents, which
`PyArray_Empty` left uninitialised. -/
def stackLoop (d : List Nat) (nv : List F32) (N H W : Nat)
    (buf : Nat × Nat × Nat → F32) : Nat × Nat × Nat → F32 :=
  accLoop (fun t => t)
    (fun a t => fadd a (fdiv (u16ToF32 (pix3 d H W t.1 t.2.1 t.2.2)) (nv.getD t.1 none)))
    (idx3 N H W) buf

/-- Embedding of `masked_histogram` (computation.c lines 54-175).  `_mem` is
the garbage contents of the memory the output buffer is allocated in;
`PyArray_Zeros` overwrites it.  Validation happens in source order, before
the allocation; the returned histogram is the materialised 65536-bin
buffer. -/
def masked_histogram (_mem : Nat → Nat) (images mask : NDArray) : Run (List Nat) :=
  if images.ndim ≠ 3 then ⟨.error (.indexError ("expected ndim=3 images array")), false⟩
  else if ¬ images.isU16 then ⟨.error (.runtimeError ("expected uint16 images array")), false⟩
  else if mask.ndim ≠ 2 then ⟨.error (.indexError ("expected ndim=1 mask array")), false⟩
  else if ¬ mask.isU16 then ⟨.error (.runtimeError ("expected uint16 mask array")), false⟩
  else if images.shape.getD 1 0 ≠ mask.shape.getD 0 0 ∨ images.shape.getD 2 0 ≠ mask.shape.getD 1 0 then
    ⟨.error (.indexError ("mask and image sizes do not match")), false⟩
  else
    match histLoop images.u16data mask.u16data (images.shape.getD 0 0)
        (images.shape.getD 1 0) (images.shape.getD 2 0) (allocZerosU64 _mem) with
    | none => ⟨.error (.indexError ("histogram bin index out of range")), true⟩
    | some b => ⟨.ok ((List.range 65536).map b), true⟩

/-- Embedding of `masked_sum` (computation.c lines 178-297): identical
validation, then the per-frame accumulation into a freshly zeroed uint64
buffer of length `N`. -/
def masked_sum (_mem : Nat → Nat) (images mask : NDArray) : Run (List Nat) :=
  if images.ndim ≠ 3 then ⟨.error (.indexError ("expected ndim=3 images array")), false⟩
  else if ¬ images.isU16 then ⟨.error (.runtimeError ("expected uint16 images array")), false⟩
  else if mask.ndim ≠ 2 then ⟨.error (.indexError ("expected ndim=1 mask array")), false⟩
  else if ¬ mask.isU16 then ⟨.error (.runtimeError ("expected uint16 mask array")), false⟩
  else if images.shape.getD 1 0 ≠ mask.shape.getD 0 0 ∨ images.shape.getD 2 0 ≠ mask.shape.getD 1 0 then
    ⟨.error (.indexError ("mask and image sizes do not match")), false⟩
  else
    ⟨.ok ((List.range (images.shape.getD 0 0)).map
      (sumLoop images.u16data mask.u16data (images.shape.getD 0 0)
        (images.shape.getD 1 0) (images.shape.getD 2 0) (allocZerosU64 _mem))), true⟩

/-- Embedding of `normed_sum` (computation.c lines 300-420): validation in
source order, then accumulation of `images[i][j][k] / norm_values[i]` into a
freshly zeroed `(H, W)` float32 buffer, materialised row by row. -/
def normed_sum (_mem : Nat × Nat → F32) (images norm_values : NDArray) :
    Run (List (List F32)) :=
  if images.ndim ≠ 3 then ⟨.error (.indexError ("expected ndim=3 images array")), false⟩
  else if ¬ images.isU16 then ⟨.error (.runtimeError ("expected uint16 images array")), false⟩
  else if norm_values.ndim ≠ 1 then
    ⟨.error (.indexError ("expected ndim=1 norm_values array")), false⟩
  else if ¬ norm_values.isF32 then
    ⟨.error (.runtimeError ("expected float32 norm_values array")), false⟩
  else if images.shape.getD 0 0 ≠ norm_values.shape.getD 0 0 then
    ⟨.error (.indexError ("normed_values and image sizes do not match")), false⟩
  else
    let b := normedLoop images.u16data norm_values.f32data (images.shape.getD 0 0)
      (images.shape.getD 1 0) (images.shape.getD 2 0) (allocZerosF32 _mem)
    ⟨.ok ((List.range (images.shape.getD 1 0)).map fun j =>
      (List.range (images.shape.getD 2 0)).map fun k => b (j, k)), true⟩

/-- Embedding of the historical `normed_stack` (earlier revision of the same
module, lines 184-312): validation as in `normed_sum`, but the `(N, H, W)`
float32 output buffer is allocated with `PyArray_Empty` — uninitialised, so
it starts out holding the garbage `mem` — and the loop does `+=` into it. -/
def normed_stack (mem : Nat × Nat × Nat → F32) (images norm_values : NDArray) :
    Run (List (List (List F32))) :=
  if images.ndim ≠ 3 then ⟨.error (.indexError ("expected ndim=3 images array")), false⟩
  else if ¬ images.isU16 then ⟨.error (.runtimeError ("expected uint16 images array")), false⟩
  else if norm_values.ndim ≠ 1 then
    ⟨.error (.indexError ("expected ndim=1 norm_values array")), false⟩
  else if ¬ norm_values.isF32 then
    ⟨.error (.runtimeError ("expected float32 norm_values array")), false⟩
  else if images.shape.getD 0 0 ≠ norm_values.shape.getD 0 0 then
    ⟨.error (.indexError ("normed_values and image sizes do not match")), false⟩
  else
    let b := stackLoop images.u16data norm_values.f32data (images.shape.getD 0 0)
      (images.shape.getD 1 0) (images.shape.getD 2 0) (allocEmptyF32 mem)
    ⟨.ok ((List.range (images.shape.getD 0 0)).map fun i =>
      (List.range (images.shape.getD 1 0)).map fun j =>
        (List.range (images.shape.getD 2 0)).map fun k => b (i, j, k)), true⟩

/-! Arithmetic facts about the binary32 model: characterisation of the fuel
log, and exactness of rounding on small integers. -/

theorem log2fuel_lower : ∀ fuel n : Nat, 1 ≤ n → n < 2 ^ fuel → 2 ^ log2fuel fuel n ≤ n := by
  intro fuel
  induction fuel with
  | zero =>
    intro n h1 h2
    simp only [pow_zero] at h2
    omega
  | succ f ih =>
    intro n h1 h2
    simp only [log2fuel]
    by_cases h : n < 2
    · rw [if_pos h, pow_zero]
      omega
    · rw [if_neg h, pow_succ]
      have hh : 1 ≤ n / 2 := by omega
      have hlt : n / 2 < 2 ^ f := by
        rw [pow_succ] at h2
        omega
      have := ih (n / 2) hh hlt
      omega

theorem log2fuel_upper : ∀ fuel n : Nat, n < 2 ^ fuel → n < 2 ^ (log2fuel fuel n + 1) := by
  intro fuel
  induction fuel with
  | zero =>
    intro n h2
    simp only [pow_zero] at h2
    simp only [log2fuel]
    omega
  | succ f ih =>
    intro n h2
    simp only [log2fuel]
    by_cases h : n < 2
    · rw [if_pos h]
      have : (2 : Nat) ^ (0 + 1) = 2 := by norm_num
      omega
    · rw [if_neg h]
      have hlt : n / 2 < 2 ^ f := by
        rw [pow_succ] at h2
        omega
      have := ih (n / 2) hlt
      rw [pow_succ]
      omega

theorem pow2_binade_unique {a b x : Nat} (ha1 : 2 ^ a ≤ x) (ha2 : x < 2 ^ (a + 1))
    (hb1 : 2 ^ b ≤ x) (hb2 : x < 2 ^ (b + 1)) : a = b := by
  by_contra hne
  rcases Nat.lt_or_ge a b with h | h
  · have : 2 ^ (a + 1) ≤ 2 ^ b := Nat.pow_le_pow_right (by omega) (by omega)
    omega
  · have : 2 ^ (b + 1) ≤ 2 ^ a := Nat.pow_le_pow_right (by omega) (by omega)
    omega

theorem natLog2_eq {a n : Nat} (h1 : 2 ^ a ≤ n) (h2 : n < 2 ^ (a + 1)) (hn : n < 2 ^ 310) :
    natLog2 n = a := by
  have hpos : 1 ≤ n := le_trans (Nat.one_le_two_pow) h1
  exact pow2_binade_unique (log2fuel_lower 310 n hpos hn) (log2fuel_upper 310 n hn) h1 h2

theorem natLog2_self_le {n : Nat} (h1 : 1 ≤ n) (hn : n < 2 ^ 310) : 2 ^ natLog2 n ≤ n :=
  log2fuel_lower 310 n h1 hn

theorem natLog2_lt {n : Nat} (hn : n < 2 ^ 310) : n < 2 ^ (natLog2 n + 1) :=
  log2fuel_upper 310 n hn

theorem natLog2_mul_pow {n k : Nat} (h1 : 1 ≤ n) (hn : n * 2 ^ k < 2 ^ 310) :
    natLog2 (n * 2 ^ k) = natLog2 n + k := by
  have hk : 0 < 2 ^ k := pow_pos (by norm_num) k
  have hn' : n < 2 ^ 310 := lt_of_le_of_lt (Nat.le_mul_of_pos_right n hk) hn
  have hl := natLog2_self_le h1 hn'
  have hu := natLog2_lt hn'
  refine natLog2_eq ?_ ?_ hn
  · rw [pow_add]
    exact Nat.mul_le_mul_right _ hl
  · have h3 : n * 2 ^ k < 2 ^ (natLog2 n + 1) * 2 ^ k := (Nat.mul_lt_mul_right hk).2 hu
    calc n * 2 ^ k < 2 ^ (natLog2 n + 1) * 2 ^ k := h3
      _ = 2 ^ (natLog2 n + k + 1) := by rw [← pow_add]; congr 1; omega

theorem natLog2_two_pow {k : Nat} (hk : k < 310) : natLog2 (2 ^ k) = k := by
  refine natLog2_eq le_rfl (Nat.pow_lt_pow_right (by norm_num) (by omega)) ?_
  exact Nat.pow_lt_pow_right (by norm_num) hk

theorem roundToMultiple_eq_self {n shift : Nat} (h : 2 ^ shift ∣ n) :
    roundToMultiple n shift = n := by
  have hs : 0 < 2 ^ shift := pow_pos (by norm_num) shift
  obtain ⟨c, rfl⟩ := h
  have hr : 2 ^ shift * c % 2 ^ shift = 0 := Nat.mul_mod_right _ _
  simp only [roundToMultiple, hr]
  rw [if_pos (by omega)]
  rw [Nat.mul_div_cancel_left c hs, Nat.mul_comm]

theorem rdivNearest_eq_div {a b : Nat} (hb : 0 < b) (h : b ∣ a) : rdivNearest a b = a / b := by
  obtain ⟨c, rfl⟩ := h
  have hr : b * c % b = 0 := Nat.mul_mod_right _ _
  simp only [rdivNearest, hr]
  rw [if_pos (by omega)]

theorem round32_exact {n : Nat} (hn : n ≤ 2 ^ 24) :
    round32 ((n : ℤ) * 2 ^ 149) = some ((n : ℤ) * 2 ^ 149) := by
  rcases Nat.eq_zero_or_pos n with h0 | hpos
  · subst h0
    simp [round32]
  · have hz : ((n : ℤ) * 2 ^ 149) ≠ 0 := by positivity
    have hnat : ((n : ℤ) * 2 ^ 149).natAbs = n * 2 ^ 149 := by
      rw [Int.natAbs_mul, Int.natAbs_pow]
      simp
    have hbig : n * 2 ^ 149 < 2 ^ 310 := by
      calc n * 2 ^ 149 ≤ 2 ^ 24 * 2 ^ 149 := Nat.mul_le_mul_right _ hn
        _ < 2 ^ 310 := by norm_num
    have hlog : natLog2 (n * 2 ^ 149) = natLog2 n + 149 := natLog2_mul_pow hpos hbig
    have ha24 : natLog2 n ≤ 24 := by
      have h1 := natLog2_self_le hpos (by calc n ≤ 2 ^ 24 := hn
        _ < 2 ^ 310 := by norm_num)
      by_contra hgt
      have : 2 ^ 25 ≤ 2 ^ natLog2 n := Nat.pow_le_pow_right (by norm_num) (by omega)
      have : (2 : Nat) ^ 25 ≤ 2 ^ 24 := by omega
      norm_num at this
    have hshift : max (natLog2 (n * 2 ^ 149)) 23 - 23 = natLog2 n + 126 := by
      rw [hlog]
      omega
    have hdvd : 2 ^ (natLog2 n + 126) ∣ n * 2 ^ 149 := by
      rcases Nat.lt_or_ge (natLog2 n) 24 with hlt | hge
      · refine dvd_trans (pow_dvd_pow 2 (by omega : natLog2 n + 126 ≤ 149)) ?_
        exact dvd_mul_left _ _
      · have ha : natLog2 n = 24 := by omega
        have hn24 : n = 2 ^ 24 := by
          have h1 := natLog2_self_le hpos (by calc n ≤ 2 ^ 24 := hn
            _ < 2 ^ 310 := by norm_num)
          rw [ha] at h1
          omega
        subst hn24
        rw [ha, ← pow_add]
        exact pow_dvd_pow 2 (by omega)
    have hround : roundToMultiple (n * 2 ^ 149) (natLog2 n + 126) = n * 2 ^ 149 :=
      roundToMultiple_eq_self hdvd
    have hlt277 : n * 2 ^ 149 < 2 ^ 277 := by
      calc n * 2 ^ 149 ≤ 2 ^ 24 * 2 ^ 149 := Nat.mul_le_mul_right _ hn
        _ < 2 ^ 277 := by norm_num
    have hneg : ¬ ((n : ℤ) * 2 ^ 149 < 0) := by
      simp only [not_lt]
      positivity
    simp only [round32, if_neg hz, hnat, hshift, hround, if_pos hlt277, if_neg hneg]
    push_cast
    ring_nf

theorem natLog2_le_of_lt_two_pow {p c : Nat} (hpos : 0 < p) (hp : p < 2 ^ (c + 1))
    (hc : c < 310) : natLog2 p ≤ c := by
  have h1 := natLog2_self_le hpos (lt_of_lt_of_le hp (Nat.pow_le_pow_right (by norm_num) (by omega)))
  by_contra hgt
  have h2 : 2 ^ (c + 1) ≤ 2 ^ natLog2 p := Nat.pow_le_pow_right (by norm_num) (by omega)
  omega

theorem floorLog2Ratio_one {p : Nat} (hpos : 0 < p) (hp : p < 2 ^ 16) :
    floorLog2Ratio (p * 2 ^ 149) (2 ^ 149) = (natLog2 p : ℤ) := by
  have hbig : p * 2 ^ 149 < 2 ^ 310 := by
    calc p * 2 ^ 149 ≤ 2 ^ 16 * 2 ^ 149 := Nat.mul_le_mul_right _ (le_of_lt hp)
      _ < 2 ^ 310 := by norm_num
  have hpl : natLog2 (p * 2 ^ 149) = natLog2 p + 149 := natLog2_mul_pow hpos hbig
  have hbl : natLog2 (2 ^ 149) = 149 := natLog2_two_pow (by norm_num)
  have hle : 2 ^ natLog2 p ≤ p := natLog2_self_le hpos (by omega)
  simp only [floorLog2Ratio, hpl, hbl]
  have hd : ((natLog2 p + 149 : ℕ) : ℤ) - ((149 : ℕ) : ℤ) = (natLog2 p : ℤ) := by
    push_cast
    ring
  rw [hd]
  rw [if_pos (by positivity : (0 : ℤ) ≤ (natLog2 p : ℤ))]
  rw [Int.toNat_natCast]
  rw [if_pos (Nat.mul_le_mul_right _ hle)]

theorem fdivAux_one {p : Nat} (hpos : 0 < p) (hp : p < 2 ^ 16) :
    fdivAux (p * 2 ^ 149) (2 ^ 149) = some ((p : ℤ) * 2 ^ 149) := by
  have ha15 : natLog2 p ≤ 15 := natLog2_le_of_lt_two_pow hpos hp (by norm_num)
  simp only [fdivAux, floorLog2Ratio_one hpos hp]
  have hg : max ((natLog2 p : ℤ) - 23) (-149) = (natLog2 p : ℤ) - 23 := by
    apply max_eq_left
    omega
  rw [hg]
  rw [if_neg (by omega : ¬ (0 : ℤ) ≤ (natLog2 p : ℤ) - 23)]
  have htn : (-((natLog2 p : ℤ) - 23)).toNat = 23 - natLog2 p := by omega
  have htn2 : ((natLog2 p : ℤ) - 23 + 149).toNat = natLog2 p + 126 := by omega
  rw [htn, htn2]
  have hcomm : p * 2 ^ 149 * 2 ^ (23 - natLog2 p) = p * 2 ^ (23 - natLog2 p) * 2 ^ 149 := by ring
  rw [hcomm]
  have hdvd : (2 ^ 149 : ℕ) ∣ p * 2 ^ (23 - natLog2 p) * 2 ^ 149 := dvd_mul_left _ _
  rw [rdivNearest_eq_div (by positivity) hdvd]
  rw [Nat.mul_div_cancel _ (by positivity : (0 : ℕ) < 2 ^ 149)]
  have hexp : 23 - natLog2 p + (natLog2 p + 126) = 149 := by omega
  have hval : p * 2 ^ (23 - natLog2 p) * 2 ^ (natLog2 p + 126) = p * 2 ^ 149 := by
    rw [mul_assoc, ← pow_add, hexp]
  rw [if_pos (by
    rw [hval]
    calc p * 2 ^ 149 ≤ 2 ^ 16 * 2 ^ 149 := Nat.mul_le_mul_right _ (le_of_lt hp)
      _ < 2 ^ 277 := by norm_num)]
  refine congrArg some ?_
  exact_mod_cast hval

theorem fdiv_one_exact {p : Nat} (hp : p < 2 ^ 16) :
    fdiv (some ((p : ℤ) * 2 ^ 149)) (some ((2 : ℤ) ^ 149)) = some ((p : ℤ) * 2 ^ 149) := by
  have hb : ((2 : ℤ) ^ 149) ≠ 0 := by positivity
  rcases Nat.eq_zero_or_pos p with h0 | hpos
  · subst h0
    simp [fdiv, hb]
  · have ha : ((p : ℤ) * 2 ^ 149) ≠ 0 := by positivity
    have hsa : ¬ ((p : ℤ) * 2 ^ 149 < 0) := by
      simp only [not_lt]
      positivity
    have hsb : ¬ ((2 : ℤ) ^ 149 < 0) := by
      simp only [not_lt]
      positivity
    have hiff : ((p : ℤ) * 2 ^ 149 < 0) ↔ ((2 : ℤ) ^ 149 < 0) := by
      constructor
      · intro h
        exact absurd h hsa
      · intro h
        exact absurd h hsb
    have hna : ((p : ℤ) * 2 ^ 149).natAbs = p * 2 ^ 149 := by
      rw [Int.natAbs_mul, Int.natAbs_pow]
      simp
    have hnb : ((2 : ℤ) ^ 149).natAbs = 2 ^ 149 := by
      rw [Int.natAbs_pow]
      rfl
    simp only [fdiv, if_neg hb, if_neg ha, hna, hnb, if_pos hiff]
    exact fdivAux_one hpos hp

/-! Generic facts about the sequential loops: value of one buffer cell after
an accumulation pass, counting and summing folds, and the shape of the index
list `idx3`. -/

theorem pix3_lt {d : List Nat} (hd : ∀ x ∈ d, x < 65536) (H W i j k : Nat) :
    pix3 d H W i j k < 65536 := by
  unfold pix3
  rcases Nat.lt_or_ge (i * (H * W) + j * W + k) d.length with h | h
  · rw [List.getD_eq_getElem?_getD, List.getElem?_eq_getElem h]
    exact hd _ (List.getElem_mem h)
  · rw [List.getD_eq_default _ _ h]
    norm_num

theorem accLoop_apply {γ α : Type} [DecidableEq γ] (cell : Nat × Nat × Nat → γ)
    (f : α → Nat × Nat × Nat → α) :
    ∀ (l : List (Nat × Nat × Nat)) (buf : γ → α) (x : γ),
      accLoop cell f l buf x = (l.filter (fun t => decide (cell t = x))).foldl f (buf x) := by
  intro l
  induction l with
  | nil =>
    intro buf x
    rfl
  | cons t ts ih =>
    intro buf x
    by_cases hc : cell t = x
    · rw [List.filter_cons_of_pos (by simp [hc])]
      show accLoop cell f ts (Function.update buf (cell t) (f (buf (cell t)) t)) x
          = List.foldl f (f (buf x) t) (ts.filter fun t => decide (cell t = x))
      rw [ih]
      subst hc
      rw [Function.update_same]
    · rw [List.filter_cons_of_neg (by simp [hc])]
      show accLoop cell f ts (Function.update buf (cell t) (f (buf (cell t)) t)) x
          = List.foldl f (buf x) (ts.filter fun t => decide (cell t = x))
      rw [ih]
      rw [Function.update_noteq (Ne.symm hc)]

theorem histLoop_some (d m : List Nat) (N H W : Nat) (hd : ∀ x ∈ d, x < 65536)
    (buf : Nat → Nat) :
    histLoop d m N H W buf = some (accLoop (fun t => pix3 d H W t.1 t.2.1 t.2.2)
      (fun a t => if mask2 m W t.2.1 t.2.2 = 1 then (a + 1) % 2 ^ 64 else a)
      (idx3 N H W) buf) := by
  unfold histLoop accLoop
  generalize idx3 N H W = l
  induction l generalizing buf with
  | nil => rfl
  | cons t ts ih =>
    simp only [List.foldl_cons, Option.some_bind]
    by_cases hm : mask2 m W t.2.1 t.2.2 = 1
    · rw [if_pos hm, if_pos (pix3_lt hd H W t.1 t.2.1 t.2.2)]
      rw [ih]
      rw [if_pos hm]
    · rw [if_neg hm]
      rw [ih]
      rw [if_neg hm, Function.update_eq_self]

theorem foldl_count_mod {P : Nat × Nat × Nat → Prop} [DecidablePred P] :
    ∀ (l : List (Nat × Nat × Nat)) (a : Nat), a < 2 ^ 64 →
      l.foldl (fun acc t => if P t then (acc + 1) % 2 ^ 64 else acc) a
        = (a + l.countP (fun t => decide (P t))) % 2 ^ 64 := by
  intro l
  induction l with
  | nil =>
    intro a ha
    simp only [List.foldl_nil, List.countP_nil, Nat.add_zero]
    omega
  | cons t ts ih =>
    intro a ha
    simp only [List.foldl_cons]
    by_cases hp : P t
    · rw [if_pos hp, List.countP_cons_of_pos _ _ (by simp [hp])]
      rw [ih _ (Nat.mod_lt _ (by norm_num))]
      omega
    · rw [if_neg hp, List.countP_cons_of_neg _ _ (by simp [hp])]
      exact ih a ha

theorem foldl_add_mod (v : Nat × Nat × Nat → Nat) :
    ∀ (l : List (Nat × Nat × Nat)) (a : Nat), a < 2 ^ 64 →
      l.foldl (fun acc t => (acc + v t) % 2 ^ 64) a = (a + (l.map v).sum) % 2 ^ 64 := by
  intro l
  induction l with
  | nil =>
    intro a ha
    simp only [List.foldl_nil, List.map_nil, List.sum_nil, Nat.add_zero]
    omega
  | cons t ts ih =>
    intro a ha
    simp only [List.foldl_cons, List.map_cons, List.sum_cons]
    rw [ih _ (Nat.mod_lt _ (by norm_num))]
    omega

theorem sum_range_map (f : Nat → Nat) : ∀ n : Nat,
    ((List.range n).map f).sum = ∑ i ∈ Finset.range n, f i := by
  intro n
  induction n with
  | zero => rfl
  | succ k ih =>
    rw [List.range_succ, List.map_append, List.sum_append, Finset.sum_range_succ, ih]
    simp

theorem joinL_map_sum {α : Type} (F : α → Nat) : ∀ ls : List (List α),
    ((joinL ls).map F).sum = (ls.map (fun l => (l.map F).sum)).sum := by
  intro ls
  induction ls with
  | nil => rfl
  | cons l rest ih =>
    simp only [joinL, List.map_append, List.sum_append, List.map_cons, List.sum_cons, ih]

theorem countP_eq_map_sum {α : Type} (p : α → Bool) : ∀ l : List α,
    l.countP p = (l.map (fun t => if p t then 1 else 0)).sum := by
  intro l
  induction l with
  | nil => rfl
  | cons t ts ih =>
    simp only [List.map_cons, List.sum_cons]
    by_cases hp : p t
    · rw [List.countP_cons_of_pos _ _ hp, if_pos hp, ih]
      omega
    · rw [List.countP_cons_of_neg _ _ hp, if_neg hp, ih]
      omega

theorem filter_map_sum {α : Type} (p : α → Bool) (F : α → Nat) : ∀ l : List α,
    ((l.filter p).map F).sum = (l.map (fun t => if p t then F t else 0)).sum := by
  intro l
  induction l with
  | nil => rfl
  | cons t ts ih =>
    simp only [List.map_cons, List.sum_cons]
    by_cases hp : p t
    · rw [List.filter_cons_of_pos hp, List.map_cons, List.sum_cons, if_pos hp, ih]
    · rw [List.filter_cons_of_neg hp, if_neg hp, ih]
      omega

theorem row_map_sum (F : Nat × Nat × Nat → Nat) (i j W : Nat) :
    ((((List.range W).map fun k => (i, j, k))).map F).sum
      = ∑ k ∈ Finset.range W, F (i, j, k) := by
  rw [List.map_map]
  exact sum_range_map _ W

theorem frame_map_sum (F : Nat × Nat × Nat → Nat) (i H W : Nat) :
    ((joinL ((List.range H).map fun j => (List.range W).map fun k => (i, j, k))).map F).sum
      = ∑ j ∈ Finset.range H, ∑ k ∈ Finset.range W, F (i, j, k) := by
  rw [joinL_map_sum, List.map_map]
  have : ((fun l => (List.map F l).sum) ∘ fun j => (List.range W).map fun k => (i, j, k))
      = fun j => ∑ k ∈ Finset.range W, F (i, j, k) := by
    funext j
    exact row_map_sum F i j W
  rw [this]
  exact sum_range_map _ H

theorem idx3_map_sum (F : Nat × Nat × Nat → Nat) (N H W : Nat) :
    ((idx3 N H W).map F).sum
      = ∑ i ∈ Finset.range N, ∑ j ∈ Finset.range H, ∑ k ∈ Finset.range W, F (i, j, k) := by
  unfold idx3
  rw [joinL_map_sum, List.map_map]
  have : ((fun l => (List.map F l).sum)
        ∘ fun i => joinL ((List.range H).map fun j => (List.range W).map fun k => (i, j, k)))
      = fun i => ∑ j ∈ Finset.range H, ∑ k ∈ Finset.range W, F (i, j, k) := by
    funext i
    exact frame_map_sum F i H W
  rw [this]
  exact sum_range_map _ N

theorem joinL_append {α : Type} : ∀ l1 l2 : List (List α), joinL (l1 ++ l2) = joinL l1 ++ joinL l2 := by
  intro l1 l2
  induction l1 with
  | nil => rfl
  | cons x xs ih =>
    show x ++ joinL (xs ++ l2) = (x ++ joinL xs) ++ joinL l2
    rw [ih, List.append_assoc]

theorem idx3_succ (N H W : Nat) :
    idx3 (N + 1) H W = idx3 N H W
      ++ joinL ((List.range H).map fun j => (List.range W).map fun k => (N, j, k)) := by
  unfold idx3
  rw [List.range_succ, List.map_append, joinL_append]
  simp [joinL]

theorem joinL_filter {α : Type} (p : α → Bool) : ∀ ls : List (List α),
    (joinL ls).filter p = joinL (ls.map fun l => l.filter p) := by
  intro ls
  induction ls with
  | nil => rfl
  | cons l rest ih => simp only [joinL, List.filter_append, List.map_cons, ih]

theorem range_filter_eq {a n : Nat} (h : a < n) :
    (List.range n).filter (fun x => decide (x = a)) = [a] := by
  induction n with
  | zero => omega
  | succ k ih =>
    rw [List.range_succ, List.filter_append]
    rcases Nat.lt_or_ge a k with hk | hk
    · rw [ih hk]
      have h2 : (List.filter (fun x => decide (x = a)) [k]) = [] := by
        rw [List.filter_eq_nil_iff]
        intro x hx
        simp only [List.mem_singleton] at hx
        subst hx
        simp only [decide_eq_true_eq]
        omega
      rw [h2, List.append_nil]
    · have ha : a = k := by omega
      subst ha
      have h1 : (List.range a).filter (fun x => decide (x = a)) = [] := by
        rw [List.filter_eq_nil_iff]
        intro x hx
        simp only [decide_eq_true_eq]
        have := List.mem_range.1 hx
        omega
      rw [h1]
      rw [List.filter_cons_of_pos (by simp)]
      rfl

theorem filter_map_list {α β : Type} (f : α → β) (p : β → Bool) : ∀ l : List α,
    (l.map f).filter p = (l.filter fun x => p (f x)).map f := by
  intro l
  induction l with
  | nil => rfl
  | cons a as ih =>
    simp only [List.map_cons]
    by_cases h : p (f a)
    · have hr : List.filter (fun x => p (f x)) (a :: as)
          = a :: List.filter (fun x => p (f x)) as := by
        simp [List.filter_cons, h]
      rw [List.filter_cons_of_pos h, hr, List.map_cons, ih]
    · have hr : List.filter (fun x => p (f x)) (a :: as)
          = List.filter (fun x => p (f x)) as := by
        simp [List.filter_cons, h]
      rw [List.filter_cons_of_neg h, hr, ih]

theorem row_filter_hit {j k W : Nat} (hk : k < W) (i : Nat) :
    ((List.range W).map fun x => (i, j, x)).filter
      (fun t => decide ((t.2.1, t.2.2) = (j, k))) = [(i, j, k)] := by
  rw [filter_map_list]
  have hcong : (List.range W).filter (fun x => decide (((i, j, x).2.1, (i, j, x).2.2) = (j, k)))
      = (List.range W).filter (fun x => decide (x = k)) := by
    apply List.filter_congr
    intro x hx
    simp [decide_eq_decide, Prod.ext_iff]
  rw [hcong, range_filter_eq hk]
  rfl

theorem row_filter_miss {j j' k W : Nat} (hne : j' ≠ j) (i : Nat) :
    ((List.range W).map fun x => (i, j', x)).filter
      (fun t => decide ((t.2.1, t.2.2) = (j, k))) = [] := by
  rw [List.filter_eq_nil_iff]
  intro t ht
  simp only [List.mem_map] at ht
  obtain ⟨x, hx, rfl⟩ := ht
  simp [Prod.ext_iff, hne]

theorem joinL_eq_nil {α : Type} (g : Nat → List α) :
    ∀ n, (∀ j', j' < n → g j' = []) → joinL ((List.range n).map g) = [] := by
  intro n
  induction n with
  | zero => intro h; rfl
  | succ m ih =>
    intro h
    rw [List.range_succ, List.map_append, joinL_append, ih (fun j hj => h j (by omega))]
    simp [joinL, h m (by omega)]

theorem joinL_map_single {α : Type} (x : α) (g : Nat → List α) :
    ∀ n j : Nat, j < n → (∀ j', j' ≠ j → g j' = []) → g j = [x] →
      joinL ((List.range n).map g) = [x] := by
  intro n
  induction n with
  | zero =>
    intro j hj
    omega
  | succ m ih =>
    intro j hj hmiss hhit
    rw [List.range_succ, List.map_append, joinL_append]
    rcases Nat.lt_or_ge j m with h | h
    · rw [ih j h hmiss hhit]
      simp [joinL, hmiss m (by omega)]
    · have hjm : j = m := by omega
      subst hjm
      rw [joinL_eq_nil g j (fun j' hj' => hmiss j' (by omega))]
      simp [joinL, hhit]

theorem block_filter {j k H W : Nat} (hj : j < H) (hk : k < W) (i : Nat) :
    (joinL ((List.range H).map fun j' => (List.range W).map fun k' => (i, j', k'))).filter
      (fun t => decide ((t.2.1, t.2.2) = (j, k))) = [(i, j, k)] := by
  rw [joinL_filter, List.map_map]
  refine joinL_map_single (i, j, k)
    (fun j' => ((List.range W).map fun k' => (i, j', k')).filter
      (fun t => decide ((t.2.1, t.2.2) = (j, k)))) H j hj ?_ ?_
  · intro j' hne
    exact row_filter_miss hne i
  · exact row_filter_hit hk i

theorem idx3_filter_cell {j k H W : Nat} (hj : j < H) (hk : k < W) :
    ∀ N, (idx3 N H W).filter (fun t => decide ((t.2.1, t.2.2) = (j, k)))
      = (List.range N).map (fun i => (i, j, k)) := by
  intro N
  induction N with
  | zero => rfl
  | succ n ih =>
    rw [idx3_succ, List.filter_append, ih, block_filter hj hk, List.range_succ, List.map_append]
    rfl

/-! Specification-side quantities (the histogram bin counts, masked sums and
normalised cell sums named by the documentation), and closed forms for the
three kernels on well-shaped inputs. -/

/-- Number of triples `(f, y, x)` with `mask[y][x] == 1` and
`frames[f][y][x] == v`. -/
def specHistBin (d m : List Nat) (N H W v : Nat) : Nat :=
  ((Finset.range N ×ˢ Finset.range H ×ˢ Finset.range W).filter
    (fun t => mask2 m W t.2.1 t.2.2 = 1 ∧ pix3 d H W t.1 t.2.1 t.2.2 = v)).card

/-- Number of mask entries equal to `1`. -/
def maskOnes (m : List Nat) (H W : Nat) : Nat :=
  ((Finset.range H ×ˢ Finset.range W).filter (fun p => mask2 m W p.1 p.2 = 1)).card

/-- Exact mathematical per-frame masked sum `∑ frames[i][y][x] * mask[y][x]`. -/
def specFrameSum (d m : List Nat) (H W i : Nat) : Nat :=
  ∑ j ∈ Finset.range H, ∑ k ∈ Finset.range W, pix3 d H W i j k * mask2 m W j k

/-- Per-frame sum of the C products (with the 32-bit intermediate wrap). -/
def specWrapSum (d m : List Nat) (H W i : Nat) : Nat :=
  ∑ j ∈ Finset.range H, ∑ k ∈ Finset.range W, cMulWrap (pix3 d H W i j k) (mask2 m W j k)

/-- Exact per-pixel-position sum across frames. -/
def specCellSum (d : List Nat) (N H W j k : Nat) : Nat :=
  ∑ i ∈ Finset.range N, pix3 d H W i j k

theorem histBin_count (d m : List Nat) (N H W v : Nat) :
    accLoop (fun t => pix3 d H W t.1 t.2.1 t.2.2)
      (fun a t => if mask2 m W t.2.1 t.2.2 = 1 then (a + 1) % 2 ^ 64 else a)
      (idx3 N H W) (fun _ => 0) v = specHistBin d m N H W v % 2 ^ 64 := by
  rw [accLoop_apply]
  rw [foldl_count_mod _ 0 (by norm_num)]
  rw [Nat.zero_add]
  have hcount : ((idx3 N H W).filter (fun t => decide (pix3 d H W t.1 t.2.1 t.2.2 = v))).countP
      (fun t => decide (mask2 m W t.2.1 t.2.2 = 1)) = specHistBin d m N H W v := by
    rw [countP_eq_map_sum, filter_map_sum, idx3_map_sum]
    unfold specHistBin
    rw [Finset.card_filter, Finset.sum_product]
    simp only [Finset.sum_product]
    refine Finset.sum_congr rfl fun i _ => Finset.sum_congr rfl fun j _ =>
      Finset.sum_congr rfl fun k _ => ?_
    by_cases h1 : pix3 d H W i j k = v
    · by_cases h2 : mask2 m W j k = 1
      · simp [h1, h2]
      · simp [h1, h2]
    · by_cases h2 : mask2 m W j k = 1
      · simp [h1, h2]
      · simp [h1, h2]
  rw [hcount]

theorem masked_histogram_ok (g : Nat → Nat) (N H W : Nat) (d m : List Nat)
    (hd : ∀ x ∈ d, x < 65536) :
    masked_histogram g ⟨[N, H, W], .u16 d⟩ ⟨[H, W], .u16 m⟩
      = ⟨.ok ((List.range 65536).map fun v => specHistBin d m N H W v % 2 ^ 64), true⟩ := by
  unfold masked_histogram
  rw [if_neg (by simp [NDArray.ndim])]
  rw [if_neg (by simp [NDArray.isU16])]
  rw [if_neg (by simp [NDArray.ndim])]
  rw [if_neg (by simp [NDArray.isU16])]
  rw [if_neg (by simp)]
  have hl := histLoop_some d m N H W hd (fun _ => 0)
  show (match histLoop d m N H W (fun _ => 0) with
    | none => (⟨.error (.indexError ("histogram bin index out of range")), true⟩ : Run (List Nat))
    | some b => ⟨.ok ((List.range 65536).map b), true⟩)
      = ⟨.ok ((List.range 65536).map fun v => specHistBin d m N H W v % 2 ^ 64), true⟩
  rw [hl]
  show (⟨.ok ((List.range 65536).map (accLoop (fun t => pix3 d H W t.1 t.2.1 t.2.2)
      (fun a t => if mask2 m W t.2.1 t.2.2 = 1 then (a + 1) % 2 ^ 64 else a)
      (idx3 N H W) (fun _ => 0))), true⟩ : Run (List Nat)) = _
  have hfun : (List.range 65536).map (accLoop (fun t => pix3 d H W t.1 t.2.1 t.2.2)
      (fun a t => if mask2 m W t.2.1 t.2.2 = 1 then (a + 1) % 2 ^ 64 else a)
      (idx3 N H W) (fun _ => 0))
      = (List.range 65536).map fun v => specHistBin d m N H W v % 2 ^ 64 := by
    apply List.map_congr_left
    intro v _
    exact histBin_count d m N H W v
  rw [hfun]

theorem sumCell_value (d m : List Nat) (N H W i : Nat) (hi : i < N) :
    sumLoop d m N H W (fun _ => 0) i = specWrapSum d m H W i % 2 ^ 64 := by
  unfold sumLoop
  rw [accLoop_apply]
  rw [foldl_add_mod _ _ 0 (by norm_num)]
  rw [Nat.zero_add]
  have hsum : (((idx3 N H W).filter (fun t => decide (t.1 = i))).map
      (fun t => cMulWrap (pix3 d H W t.1 t.2.1 t.2.2) (mask2 m W t.2.1 t.2.2))).sum
      = specWrapSum d m H W i := by
    rw [filter_map_sum, idx3_map_sum]
    have hstep : ∀ i' : Nat, (∑ j ∈ Finset.range H, ∑ k ∈ Finset.range W,
        if decide ((i', j, k).1 = i) = true
        then cMulWrap (pix3 d H W i' j k) (mask2 m W j k) else 0)
        = if i' = i then specWrapSum d m H W i' else 0 := by
      intro i'
      by_cases h : i' = i
      · subst h
        simp [specWrapSum]
      · simp only [decide_eq_true_eq]
        rw [if_neg h]
        refine Finset.sum_eq_zero fun j _ => Finset.sum_eq_zero fun k _ => ?_
        rw [if_neg h]
    rw [Finset.sum_congr rfl fun i' _ => hstep i']
    rw [Finset.sum_ite_eq' (Finset.range N) i (fun i' => specWrapSum d m H W i')]
    rw [if_pos (Finset.mem_range.2 hi)]
  rw [hsum]

theorem masked_sum_ok (g : Nat → Nat) (N H W : Nat) (d m : List Nat) :
    masked_sum g ⟨[N, H, W], .u16 d⟩ ⟨[H, W], .u16 m⟩
      = ⟨.ok ((List.range N).map fun i => specWrapSum d m H W i % 2 ^ 64), true⟩ := by
  unfold masked_sum
  rw [if_neg (by simp [NDArray.ndim])]
  rw [if_neg (by simp [NDArray.isU16])]
  rw [if_neg (by simp [NDArray.ndim])]
  rw [if_neg (by simp [NDArray.isU16])]
  rw [if_neg (by simp)]
  show (⟨.ok ((List.range N).map (sumLoop d m N H W (fun _ => 0))), true⟩ : Run (List Nat)) = _
  have hfun : (List.range N).map (sumLoop d m N H W (fun _ => 0))
      = (List.range N).map fun i => specWrapSum d m H W i % 2 ^ 64 := by
    apply List.map_congr_left
    intro i hi
    exact sumCell_value d m N H W i (List.mem_range.1 hi)
  rw [hfun]

theorem normedCell_value (d : List Nat) (nv : List F32) (N H W j k : Nat)
    (hj : j < H) (hk : k < W) :
    normedLoop d nv N H W (fun _ => some 0) (j, k)
      = (List.range N).foldl
          (fun a i => fadd a (fdiv (u16ToF32 (pix3 d H W i j k)) (nv.getD i none)))
          (some 0) := by
  unfold normedLoop
  rw [accLoop_apply]
  rw [idx3_filter_cell hj hk N]
  rw [List.foldl_map]

theorem normed_sum_ok (g : Nat × Nat → F32) (N H W : Nat) (d : List Nat) (nv : List F32) :
    normed_sum g ⟨[N, H, W], .u16 d⟩ ⟨[N], .f32 nv⟩
      = ⟨.ok ((List.range H).map fun j => (List.range W).map fun k =>
          (List.range N).foldl
            (fun a i => fadd a (fdiv (u16ToF32 (pix3 d H W i j k)) (nv.getD i none)))
            (some 0)), true⟩ := by
  unfold normed_sum
  rw [if_neg (by simp [NDArray.ndim])]
  rw [if_neg (by simp [NDArray.isU16])]
  rw [if_neg (by simp [NDArray.ndim])]
  rw [if_neg (by simp [NDArray.isF32])]
  rw [if_neg (by simp)]
  show (⟨.ok ((List.range H).map fun j => (List.range W).map fun k =>
      normedLoop d nv N H W (fun _ => some 0) (j, k)), true⟩ : Run (List (List F32))) = _
  have hfun : ((List.range H).map fun j => (List.range W).map fun k =>
      normedLoop d nv N H W (fun _ => some 0) (j, k))
      = (List.range H).map fun j => (List.range W).map fun k =>
          (List.range N).foldl
            (fun a i => fadd a (fdiv (u16ToF32 (pix3 d H W i j k)) (nv.getD i none)))
            (some 0) := by
    apply List.map_congr_left
    intro j hj
    apply List.map_congr_left
    intro k hk
    exact normedCell_value d nv N H W j k (List.mem_range.1 hj) (List.mem_range.1 hk)
  rw [hfun]

/-! Exactness of the float accumulation when every norm value is exactly 1.0
and all partial sums stay at or below `2 ^ 24`, where binary32 represents
every integer. -/

theorem normedFold_exact (pv : Nat → Nat) (nv : Nat → F32) :
    ∀ (is : List Nat) (s : Nat),
      (∀ i ∈ is, nv i = some (2 ^ 149)) → (∀ i ∈ is, pv i < 65536) →
      s + (is.map pv).sum ≤ 2 ^ 24 →
      is.foldl (fun a i => fadd a (fdiv (u16ToF32 (pv i)) (nv i))) (some ((s : ℤ) * 2 ^ 149))
        = some (((s + (is.map pv).sum : ℕ) : ℤ) * 2 ^ 149) := by
  intro is
  induction is with
  | nil =>
    intro s _ _ _
    simp
  | cons i rest ih =>
    intro s hnv hpv hsum
    simp only [List.foldl_cons, List.map_cons, List.sum_cons] at hsum ⊢
    have hnv0 : nv i = some (2 ^ 149) := hnv i (by simp)
    have hpv0 : pv i < 65536 := hpv i (by simp)
    have hu : u16ToF32 (pv i) = some ((pv i : ℤ) * 2 ^ 149) := round32_exact (by omega)
    rw [hnv0, hu, fdiv_one_exact (show pv i < 2 ^ 16 by omega)]
    show (rest.foldl _ (fadd (some ((s : ℤ) * 2 ^ 149)) (some ((pv i : ℤ) * 2 ^ 149)))) = _
    have hcast : (s : ℤ) * 2 ^ 149 + (pv i : ℤ) * 2 ^ 149 = ((s + pv i : ℕ) : ℤ) * 2 ^ 149 := by
      push_cast
      ring
    show (rest.foldl _ (round32 ((s : ℤ) * 2 ^ 149 + (pv i : ℤ) * 2 ^ 149))) = _
    rw [hcast, round32_exact (by omega : s + pv i ≤ 2 ^ 24)]
    rw [ih (s + pv i) (fun x hx => hnv x (by simp [hx])) (fun x hx => hpv x (by simp [hx]))
      (by omega)]
    rw [Nat.add_assoc]

/-! Per-frame decomposition of the histogram counts (for the frame
permutation claim). -/

/-- Histogram contribution of one frame. -/
def frameBin (m : List Nat) (H W v : Nat) (f : List Nat) : Nat :=
  ((Finset.range H ×ˢ Finset.range W).filter
    (fun p => mask2 m W p.1 p.2 = 1 ∧ f.getD (p.1 * W + p.2) 0 = v)).card

theorem pix3_joinL {H W : Nat} : ∀ (frames : List (List Nat)) (i j k : Nat),
    (∀ f ∈ frames, f.length = H * W) → i < frames.length → j < H → k < W →
    pix3 (joinL frames) H W i j k = (frames.getD i []).getD (j * W + k) 0 := by
  intro frames
  induction frames with
  | nil =>
    intro i j k _ hi
    simp at hi
  | cons f rest ih =>
    intro i j k hlen hi hj hk
    have hf : f.length = H * W := hlen f (by simp)
    have hidx : j * W + k < H * W := by
      calc j * W + k < j * W + W := by omega
        _ = (j + 1) * W := by ring
        _ ≤ H * W := Nat.mul_le_mul_right _ (by omega)
    match i with
    | 0 =>
      show (f ++ joinL rest).getD (0 * (H * W) + j * W + k) 0 = f.getD (j * W + k) 0
      rw [Nat.zero_mul, Nat.zero_add]
      rw [List.getD_eq_getElem?_getD, List.getElem?_append_left (by omega : j * W + k < f.length),
        ← List.getD_eq_getElem?_getD]
    | i' + 1 =>
      show (f ++ joinL rest).getD ((i' + 1) * (H * W) + j * W + k) 0
          = (rest.getD i' []).getD (j * W + k) 0
      have hsucc : (i' + 1) * (H * W) + j * W + k
          = f.length + (i' * (H * W) + j * W + k) := by
        rw [hf, Nat.succ_mul]
        omega
      rw [hsucc]
      rw [List.getD_eq_getElem?_getD, List.getElem?_append_right (by omega : f.length ≤ _),
        ← List.getD_eq_getElem?_getD]
      have hsub : f.length + (i' * (H * W) + j * W + k) - f.length
          = i' * (H * W) + j * W + k := by omega
      rw [hsub]
      exact ih i' j k (fun x hx => hlen x (by simp [hx])) (by simpa using hi) hj hk

theorem sum_getD_map {α : Type} (h : α → Nat) (dflt : α) : ∀ l : List α,
    ∑ i ∈ Finset.range l.length, h (l.getD i dflt) = (l.map h).sum := by
  intro l
  induction l with
  | nil => simp
  | cons a as ih =>
    rw [List.length_cons, Finset.sum_range_succ']
    simp only [List.getD_cons_succ, List.getD_cons_zero]
    rw [ih]
    simp [List.map_cons]
    omega

theorem specHistBin_frames {H W : Nat} (frames : List (List Nat)) (m : List Nat) (v : Nat)
    (hlen : ∀ f ∈ frames, f.length = H * W) :
    specHistBin (joinL frames) m frames.length H W v
      = (frames.map (frameBin m H W v)).sum := by
  unfold specHistBin
  rw [Finset.card_filter, Finset.sum_product]
  have hcong : ∀ i ∈ Finset.range frames.length,
      (∑ p ∈ Finset.range H ×ˢ Finset.range W,
        if mask2 m W p.1 p.2 = 1 ∧ pix3 (joinL frames) H W i p.1 p.2 = v then 1 else 0)
      = frameBin m H W v (frames.getD i []) := by
    intro i hi
    unfold frameBin
    rw [Finset.card_filter]
    refine Finset.sum_congr rfl fun p hp => ?_
    obtain ⟨hp1, hp2⟩ := Finset.mem_product.1 hp
    rw [pix3_joinL frames i p.1 p.2 hlen (Finset.mem_range.1 hi) (Finset.mem_range.1 hp1)
      (Finset.mem_range.1 hp2)]
  rw [Finset.sum_congr rfl hcong]
  exact sum_getD_map (frameBin m H W v) [] frames

theorem mem_joinL {α : Type} {x : α} : ∀ {ls : List (List α)},
    x ∈ joinL ls ↔ ∃ l ∈ ls, x ∈ l := by
  intro ls
  induction ls with
  | nil => simp [joinL]
  | cons l rest ih =>
    simp only [joinL, List.mem_append, ih, List.mem_cons]
    constructor
    · rintro (h | ⟨l', hl', hx⟩)
      · exact ⟨l, Or.inl rfl, h⟩
      · exact ⟨l', Or.inr hl', hx⟩
    · rintro ⟨l', hl' | hl', hx⟩
      · subst hl'
        exact Or.inl hx
      · exact Or.inr ⟨l', hl', hx⟩

theorem getD_map_range {f : Nat → Nat} {v n : Nat} (h : v < n) :
    ((List.range n).map f).getD v 0 = f v := by
  rw [List.getD_eq_getElem?_getD, List.getElem?_map, List.getElem?_range h]
  rfl

theorem map_range_const {α : Type} (c : α) (n : Nat) :
    (List.range n).map (fun _ => c) = List.replicate n c := by
  rw [show (fun _ : Nat => c) = Function.const Nat c from rfl, List.map_const, List.length_range]

/-! The ten claims. -/

/-- C1: for every valid input (uint16 pixel data, so every value is below
65536, and small enough that no 64-bit bin can wrap), `masked_histogram`
returns a freshly allocated uint64 array of length exactly 65536 whose bin
`v` counts the triples `(f, y, x)` with `mask[y][x] == 1` and
`frames[f][y][x] == v`, and the bins sum to `N * (count of mask entries
equal to 1)`. -/
theorem C1_masked_histogram_correct (g : Nat → Nat) (N H W : Nat) (d m : List Nat)
    (hd : ∀ x ∈ d, x < 65536) (hsz : N * H * W < 2 ^ 64) :
    ∃ out : List Nat,
      (masked_histogram g ⟨[N, H, W], .u16 d⟩ ⟨[H, W], .u16 m⟩).result = .ok out ∧
      (masked_histogram g ⟨[N, H, W], .u16 d⟩ ⟨[H, W], .u16 m⟩).allocated = true ∧
      out.length = 65536 ∧
      (∀ v, v < 65536 → out.getD v 0 = specHistBin d m N H W v) ∧
      out.sum = N * maskOnes m H W := by
  rw [masked_histogram_ok g N H W d m hd]
  have hbin : ∀ v, specHistBin d m N H W v < 2 ^ 64 := by
    intro v
    have hle : specHistBin d m N H W v ≤ N * (H * W) := by
      unfold specHistBin
      calc ((Finset.range N ×ˢ Finset.range H ×ˢ Finset.range W).filter
          (fun t => mask2 m W t.2.1 t.2.2 = 1 ∧ pix3 d H W t.1 t.2.1 t.2.2 = v)).card
          ≤ (Finset.range N ×ˢ Finset.range H ×ˢ Finset.range W).card :=
            Finset.card_filter_le _ _
        _ = N * (H * W) := by
            rw [Finset.card_product, Finset.card_product]
            simp [Finset.card_range]
    have : N * (H * W) = N * H * W := by ring
    omega
  refine ⟨(List.range 65536).map fun v => specHistBin d m N H W v % 2 ^ 64, rfl, rfl, ?_, ?_, ?_⟩
  · simp
  · intro v hv
    rw [getD_map_range hv]
    exact Nat.mod_eq_of_lt (hbin v)
  · rw [sum_range_map]
    have hnomod : ∀ v ∈ Finset.range 65536, specHistBin d m N H W v % 2 ^ 64
        = specHistBin d m N H W v := fun v _ => Nat.mod_eq_of_lt (hbin v)
    rw [Finset.sum_congr rfl hnomod]
    have hmem : ∀ t ∈ (Finset.range N ×ˢ Finset.range H ×ˢ Finset.range W).filter
        (fun t => mask2 m W t.2.1 t.2.2 = 1),
        pix3 d H W t.1 t.2.1 t.2.2 ∈ Finset.range 65536 := by
      intro t _
      exact Finset.mem_range.2 (pix3_lt hd H W t.1 t.2.1 t.2.2)
    have hpart := @Finset.card_eq_sum_card_fiberwise (Nat × Nat × Nat) Nat _
      (fun t => pix3 d H W t.1 t.2.1 t.2.2)
      ((Finset.range N ×ˢ Finset.range H ×ˢ Finset.range W).filter
        (fun t => mask2 m W t.2.1 t.2.2 = 1))
      (Finset.range 65536) hmem
    have hfib : ∀ v, (((Finset.range N ×ˢ Finset.range H ×ˢ Finset.range W).filter
        (fun t => mask2 m W t.2.1 t.2.2 = 1)).filter
          (fun t => pix3 d H W t.1 t.2.1 t.2.2 = v)).card = specHistBin d m N H W v := by
      intro v
      rw [Finset.filter_filter]
      rfl
    have hsum2 : ∑ v ∈ Finset.range 65536, specHistBin d m N H W v
        = ((Finset.range N ×ˢ Finset.range H ×ˢ Finset.range W).filter
            (fun t => mask2 m W t.2.1 t.2.2 = 1)).card := by
      rw [hpart]
      exact Finset.sum_congr rfl fun v _ => (hfib v).symm
    rw [hsum2]
    rw [Finset.card_filter, Finset.sum_product]
    have hconst : ∀ i ∈ Finset.range N,
        (∑ p ∈ Finset.range H ×ˢ Finset.range W,
          if mask2 m W (i, p).2.1 (i, p).2.2 = 1 then 1 else 0) = maskOnes m H W := by
      intro i _
      unfold maskOnes
      rw [Finset.card_filter]
    rw [Finset.sum_congr rfl hconst, Finset.sum_const, Finset.card_range, smul_eq_mul]

/-- Witness for C1 at a concrete input. -/
theorem C1_witness :
    ((∀ x ∈ [3], x < 65536) ∧ (1 * 1 * 1 : Nat) < 2 ^ 64) ∧
    (∃ out : List Nat,
      (masked_histogram (fun _ => 0) ⟨[1, 1, 1], .u16 [3]⟩ ⟨[1, 1], .u16 [1]⟩).result
        = .ok out ∧
      (masked_histogram (fun _ => 0) ⟨[1, 1, 1], .u16 [3]⟩ ⟨[1, 1], .u16 [1]⟩).allocated
        = true ∧
      out.length = 65536 ∧
      (∀ v, v < 65536 → out.getD v 0 = specHistBin [3] [1] 1 1 1 v) ∧
      out.sum = 1 * maskOnes [1] 1 1) :=
  ⟨⟨by decide, by decide⟩,
    C1_masked_histogram_correct (fun _ => 0) 1 1 1 [3] [1] (by decide) (by decide)⟩

/-- C10: for every valid uint16 input the unchecked buffer write
`histogram[images[i][j][k]]++` stays inside the 65536-bin buffer: the
bounds-checked loop of the embedding never reaches its out-of-bounds case,
and the call returns a histogram rather than an error. -/
theorem C10_hist_index_in_bounds (g : Nat → Nat) (N H W : Nat) (d m : List Nat)
    (hd : ∀ x ∈ d, x < 65536) :
    histLoop d m N H W (fun _ => 0) ≠ none ∧
    ∃ out : List Nat,
      (masked_histogram g ⟨[N, H, W], .u16 d⟩ ⟨[H, W], .u16 m⟩).result = .ok out := by
  constructor
  · rw [histLoop_some d m N H W hd]
    simp
  · exact ⟨(List.range 65536).map fun v => specHistBin d m N H W v % 2 ^ 64,
      by rw [masked_histogram_ok g N H W d m hd]⟩

/-- Witness for C10 at a concrete input. -/
theorem C10_witness :
    (∀ x ∈ [70000], x < 65536) = False ∧ (∀ x ∈ [3], x < 65536) ∧
    (histLoop [3] [1] 1 1 1 (fun _ => 0) ≠ none ∧
      ∃ out : List Nat,
        (masked_histogram (fun _ => 0) ⟨[1, 1, 1], .u16 [3]⟩ ⟨[1, 1], .u16 [1]⟩).result
          = .ok out) :=
  ⟨by simp, by decide, C10_hist_index_in_bounds (fun _ => 0) 1 1 1 [3] [1] (by decide)⟩

/-- C9: `masked_histogram` is invariant under permutation of the frames
along axis 0: reordering the frame stack (same mask) yields an identical
result. -/
theorem C9_hist_perm_invariant (g : Nat → Nat) (H W : Nat)
    (frames frames' : List (List Nat)) (m : List Nat)
    (hperm : frames.Perm frames')
    (hlen : ∀ f ∈ frames, f.length = H * W)
    (hval : ∀ f ∈ frames, ∀ x ∈ f, x < 65536) :
    masked_histogram g ⟨[frames.length, H, W], .u16 (joinL frames)⟩ ⟨[H, W], .u16 m⟩
      = masked_histogram g ⟨[frames'.length, H, W], .u16 (joinL frames')⟩ ⟨[H, W], .u16 m⟩ := by
  have hlen' : ∀ f ∈ frames', f.length = H * W := fun f hf => hlen f (hperm.mem_iff.2 hf)
  have hval' : ∀ f ∈ frames', ∀ x ∈ f, x < 65536 := fun f hf => hval f (hperm.mem_iff.2 hf)
  have hd : ∀ x ∈ joinL frames, x < 65536 := by
    intro x hx
    obtain ⟨l, hl, hxl⟩ := mem_joinL.1 hx
    exact hval l hl x hxl
  have hd' : ∀ x ∈ joinL frames', x < 65536 := by
    intro x hx
    obtain ⟨l, hl, hxl⟩ := mem_joinL.1 hx
    exact hval' l hl x hxl
  rw [masked_histogram_ok g frames.length H W (joinL frames) m hd,
    masked_histogram_ok g frames'.length H W (joinL frames') m hd']
  have hbin : ∀ v, specHistBin (joinL frames) m frames.length H W v
      = specHistBin (joinL frames') m frames'.length H W v := by
    intro v
    rw [specHistBin_frames frames m v hlen, specHistBin_frames frames' m v hlen',
      (hperm.map (frameBin m H W v)).sum_eq]
  have hfun : (fun v => specHistBin (joinL frames) m frames.length H W v % 2 ^ 64)
      = fun v => specHistBin (joinL frames') m frames'.length H W v % 2 ^ 64 :=
    funext fun v => by rw [hbin v]
  rw [hfun]

/-- Witness for C9 at a concrete input (two frames swapped). -/
theorem C9_witness :
    ([[1], [2]] : List (List Nat)).Perm [[2], [1]] ∧
    (∀ f ∈ ([[1], [2]] : List (List Nat)), f.length = 1 * 1) ∧
    (∀ f ∈ ([[1], [2]] : List (List Nat)), ∀ x ∈ f, x < 65536) ∧
    masked_histogram (fun _ => 0)
        ⟨[([[1], [2]] : List (List Nat)).length, 1, 1], .u16 (joinL [[1], [2]])⟩
        ⟨[1, 1], .u16 [1]⟩
      = masked_histogram (fun _ => 0)
        ⟨[([[2], [1]] : List (List Nat)).length, 1, 1], .u16 (joinL [[2], [1]])⟩
        ⟨[1, 1], .u16 [1]⟩ :=
  ⟨by decide, by decide, by decide,
    C9_hist_perm_invariant (fun _ => 0) 1 1 [[1], [2]] [[2], [1]] [1]
      (by decide) (by decide) (by decide)⟩

/-- C7: inclusion of a pixel in the histogram is decided by the strict test
`mask[y][x] == 1` — two masks with the same set of entries equal to 1 give
identical histograms, so entries of 2 and above are excluded — whereas in
`masked_sum` the mask value is a multiplicative weight: on a one-pixel frame
of value 5 a mask value of 2 contributes 10 to the sum while the histogram
counts nothing at bin 5. -/
theorem C7_mask_semantics :
    (∀ (g : Nat → Nat) (N H W : Nat) (d m m' : List Nat),
      (∀ x ∈ d, x < 65536) →
      (∀ j, j < H → ∀ k, k < W → (mask2 m W j k = 1 ↔ mask2 m' W j k = 1)) →
      masked_histogram g ⟨[N, H, W], .u16 d⟩ ⟨[H, W], .u16 m⟩
        = masked_histogram g ⟨[N, H, W], .u16 d⟩ ⟨[H, W], .u16 m'⟩) ∧
    (masked_sum (fun _ => 0) ⟨[1, 1, 1], .u16 [5]⟩ ⟨[1, 1], .u16 [2]⟩).result = .ok [10] ∧
    (∃ out : List Nat,
      (masked_histogram (fun _ => 0) ⟨[1, 1, 1], .u16 [5]⟩ ⟨[1, 1], .u16 [2]⟩).result
        = .ok out ∧ out.getD 5 0 = 0) := by
  refine ⟨?_, by decide, ?_⟩
  · intro g N H W d m m' hd hmm
    rw [masked_histogram_ok g N H W d m hd, masked_histogram_ok g N H W d m' hd]
    have hbin : ∀ v, specHistBin d m N H W v = specHistBin d m' N H W v := by
      intro v
      unfold specHistBin
      congr 1
      apply Finset.filter_congr
      intro t ht
      have hmem := Finset.mem_product.1 ht
      have hmem2 := Finset.mem_product.1 hmem.2
      have hj : t.2.1 < H := Finset.mem_range.1 hmem2.1
      have hk : t.2.2 < W := Finset.mem_range.1 hmem2.2
      constructor
      · rintro ⟨h1, h2⟩
        exact ⟨(hmm t.2.1 hj t.2.2 hk).1 h1, h2⟩
      · rintro ⟨h1, h2⟩
        exact ⟨(hmm t.2.1 hj t.2.2 hk).2 h1, h2⟩
    have hfun : (fun v => specHistBin d m N H W v % 2 ^ 64)
        = fun v => specHistBin d m' N H W v % 2 ^ 64 :=
      funext fun v => by rw [hbin v]
    rw [hfun]
  · refine ⟨(List.range 65536).map fun v => specHistBin [5] [2] 1 1 1 v % 2 ^ 64, ?_, ?_⟩
    · rw [masked_histogram_ok (fun _ => 0) 1 1 1 [5] [2] (by decide)]
    · rw [getD_map_range (by norm_num : (5 : Nat) < 65536)]
      have h0 : specHistBin [5] [2] 1 1 1 5 = 0 := by decide
      rw [h0]
      norm_num

/-- Witness for C7 at a concrete input (masks `[2]` and `[0]` have the same
set of entries equal to 1, namely none). -/
theorem C7_witness :
    (∀ x ∈ [5], x < 65536) ∧
    (∀ j, j < 1 → ∀ k, k < 1 → (mask2 [2] 1 j k = 1 ↔ mask2 [0] 1 j k = 1)) ∧
    masked_histogram (fun _ => 0) ⟨[1, 1, 1], .u16 [5]⟩ ⟨[1, 1], .u16 [2]⟩
      = masked_histogram (fun _ => 0) ⟨[1, 1, 1], .u16 [5]⟩ ⟨[1, 1], .u16 [0]⟩ :=
  ⟨by decide, by decide,
    C7_mask_semantics.1 (fun _ => 0) 1 1 1 [5] [2] [0] (by decide) (by decide)⟩

/-- C6: on an empty frame stack (N = 0, H and W well defined) all three
operations succeed and return all-zero outputs of the correct shape:
65536 zero bins, a length-0 sum array, and an all-zero `(H, W)` image. -/
theorem C6_empty_stack (g1 g2 : Nat → Nat) (g3 : Nat × Nat → F32) (H W : Nat)
    (md : List Nat) :
    masked_histogram g1 ⟨[0, H, W], .u16 []⟩ ⟨[H, W], .u16 md⟩
      = ⟨.ok (List.replicate 65536 0), true⟩ ∧
    masked_sum g2 ⟨[0, H, W], .u16 []⟩ ⟨[H, W], .u16 md⟩ = ⟨.ok [], true⟩ ∧
    normed_sum g3 ⟨[0, H, W], .u16 []⟩ ⟨[0], .f32 []⟩
      = ⟨.ok (List.replicate H (List.replicate W (some 0))), true⟩ := by
  refine ⟨?_, ?_, ?_⟩
  · rw [masked_histogram_ok g1 0 H W [] md (by simp)]
    have hbin : ∀ v : Nat, specHistBin [] md 0 H W v % 2 ^ 64 = 0 := by
      intro v
      have : specHistBin [] md 0 H W v = 0 := by
        unfold specHistBin
        simp [Finset.range_zero]
      rw [this]
      norm_num
    have hfun : (fun v => specHistBin [] md 0 H W v % 2 ^ 64) = fun _ : Nat => (0 : Nat) :=
      funext fun v => hbin v
    rw [hfun, map_range_const]
  · rw [masked_sum_ok g2 0 H W [] md]
    rfl
  · rw [normed_sum_ok g3 0 H W [] []]
    have hcell : (fun (j : Nat) => (List.range W).map fun (k : Nat) =>
        (List.range 0).foldl
          (fun a i => fadd a (fdiv (u16ToF32 (pix3 [] H W i j k)) (([] : List F32).getD i none)))
          (some 0))
        = fun _ : Nat => List.replicate W (some (0 : ℤ)) := by
      funext j
      rw [show (List.range 0) = ([] : List Nat) from rfl]
      simp only [List.foldl_nil]
      rw [map_range_const]
    rw [hcell, map_range_const]

/-- C8: each operation is a pure function of its array inputs — in
particular the result does not depend on the previous contents of the
memory the output buffer is allocated in (`PyArray_Zeros` overwrites them),
so two calls with identical inputs return identical outputs and no
cross-call state exists.  (The historical `normed_stack` of claim C4 fails
exactly this property.) -/
theorem C8_deterministic (g1 g1' g2 g2' : Nat → Nat) (g3 g3' : Nat × Nat → F32)
    (images mask norm_values : NDArray) :
    masked_histogram g1 images mask = masked_histogram g1' images mask ∧
    masked_sum g2 images mask = masked_sum g2' images mask ∧
    normed_sum g3 images norm_values = normed_sum g3' images norm_values :=
  ⟨rfl, rfl, rfl⟩

/-- C5: every invalid call fails before the output buffer is allocated
(`allocated = false`) and before any accumulation, with the error class of
the first failed check in source order: wrong rank or mismatched related
shapes raise the shape-mismatch class (`IndexError`), a wrong element type
raises the type-mismatch class (`RuntimeError`); no partial output exists
because the result carries no output at all. -/
theorem C5_fail_fast :
    (∀ (g : Nat → Nat) (images mask : NDArray),
      (images.ndim ≠ 3 →
        masked_histogram g images mask
          = ⟨.error (.indexError ("expected ndim=3 images array")), false⟩) ∧
      (images.ndim = 3 → ¬ images.isU16 →
        masked_histogram g images mask
          = ⟨.error (.runtimeError ("expected uint16 images array")), false⟩) ∧
      (images.ndim = 3 → images.isU16 → mask.ndim ≠ 2 →
        masked_histogram g images mask
          = ⟨.error (.indexError ("expected ndim=1 mask array")), false⟩) ∧
      (images.ndim = 3 → images.isU16 → mask.ndim = 2 → ¬ mask.isU16 →
        masked_histogram g images mask
          = ⟨.error (.runtimeError ("expected uint16 mask array")), false⟩) ∧
      (images.ndim = 3 → images.isU16 → mask.ndim = 2 → mask.isU16 →
        (images.shape.getD 1 0 ≠ mask.shape.getD 0 0
          ∨ images.shape.getD 2 0 ≠ mask.shape.getD 1 0) →
        masked_histogram g images mask
          = ⟨.error (.indexError ("mask and image sizes do not match")), false⟩)) ∧
    (∀ (g : Nat → Nat) (images mask : NDArray),
      (images.ndim ≠ 3 →
        masked_sum g images mask
          = ⟨.error (.indexError ("expected ndim=3 images array")), false⟩) ∧
      (images.ndim = 3 → ¬ images.isU16 →
        masked_sum g images mask
          = ⟨.error (.runtimeError ("expected uint16 images array")), false⟩) ∧
      (images.ndim = 3 → images.isU16 → mask.ndim ≠ 2 →
        masked_sum g images mask
          = ⟨.error (.indexError ("expected ndim=1 mask array")), false⟩) ∧
      (images.ndim = 3 → images.isU16 → mask.ndim = 2 → ¬ mask.isU16 →
        masked_sum g images mask
          = ⟨.error (.runtimeError ("expected uint16 mask array")), false⟩) ∧
      (images.ndim = 3 → images.isU16 → mask.ndim = 2 → mask.isU16 →
        (images.shape.getD 1 0 ≠ mask.shape.getD 0 0
          ∨ images.shape.getD 2 0 ≠ mask.shape.getD 1 0) →
        masked_sum g images mask
          = ⟨.error (.indexError ("mask and image sizes do not match")), false⟩)) ∧
    (∀ (g : Nat × Nat → F32) (images norm_values : NDArray),
      (images.ndim ≠ 3 →
        normed_sum g images norm_values
          = ⟨.error (.indexError ("expected ndim=3 images array")), false⟩) ∧
      (images.ndim = 3 → ¬ images.isU16 →
        normed_sum g images norm_values
          = ⟨.error (.runtimeError ("expected uint16 images array")), false⟩) ∧
      (images.ndim = 3 → images.isU16 → norm_values.ndim ≠ 1 →
        normed_sum g images norm_values
          = ⟨.error (.indexError ("expected ndim=1 norm_values array")), false⟩) ∧
      (images.ndim = 3 → images.isU16 → norm_values.ndim = 1 → ¬ norm_values.isF32 →
        normed_sum g images norm_values
          = ⟨.error (.runtimeError ("expected float32 norm_values array")), false⟩) ∧
      (images.ndim = 3 → images.isU16 → norm_values.ndim = 1 → norm_values.isF32 →
        images.shape.getD 0 0 ≠ norm_values.shape.getD 0 0 →
        normed_sum g images norm_values
          = ⟨.error (.indexError ("normed_values and image sizes do not match")), false⟩)) := by
  refine ⟨fun g images mask => ⟨?_, ?_, ?_, ?_, ?_⟩,
    fun g images mask => ⟨?_, ?_, ?_, ?_, ?_⟩,
    fun g images norm_values => ⟨?_, ?_, ?_, ?_, ?_⟩⟩
  · intro h1
    unfold masked_histogram
    rw [if_pos h1]
  · intro h1 h2
    unfold masked_histogram
    rw [if_neg (by simp [h1]), if_pos h2]
  · intro h1 h2 h3
    unfold masked_histogram
    rw [if_neg (by simp [h1]), if_neg (by simp [h2]), if_pos h3]
  · intro h1 h2 h3 h4
    unfold masked_histogram
    rw [if_neg (by simp [h1]), if_neg (by simp [h2]), if_neg (by simp [h3]), if_pos h4]
  · intro h1 h2 h3 h4 h5
    unfold masked_histogram
    rw [if_neg (by simp [h1]), if_neg (by simp [h2]), if_neg (by simp [h3]),
      if_neg (by simp [h4]), if_pos h5]
  · intro h1
    unfold masked_sum
    rw [if_pos h1]
  · intro h1 h2
    unfold masked_sum
    rw [if_neg (by simp [h1]), if_pos h2]
  · intro h1 h2 h3
    unfold masked_sum
    rw [if_neg (by simp [h1]), if_neg (by simp [h2]), if_pos h3]
  · intro h1 h2 h3 h4
    unfold masked_sum
    rw [if_neg (by simp [h1]), if_neg (by simp [h2]), if_neg (by simp [h3]), if_pos h4]
  · intro h1 h2 h3 h4 h5
    unfold masked_sum
    rw [if_neg (by simp [h1]), if_neg (by simp [h2]), if_neg (by simp [h3]),
      if_neg (by simp [h4]), if_pos h5]
  · intro h1
    unfold normed_sum
    rw [if_pos h1]
  · intro h1 h2
    unfold normed_sum
    rw [if_neg (by simp [h1]), if_pos h2]
  · intro h1 h2 h3
    unfold normed_sum
    rw [if_neg (by simp [h1]), if_neg (by simp [h2]), if_pos h3]
  · intro h1 h2 h3 h4
    unfold normed_sum
    rw [if_neg (by simp [h1]), if_neg (by simp [h2]), if_neg (by simp [h3]), if_pos h4]
  · intro h1 h2 h3 h4 h5
    unfold normed_sum
    rw [if_neg (by simp [h1]), if_neg (by simp [h2]), if_neg (by simp [h3]),
      if_neg (by simp [h4]), if_pos h5]

/-- Witness for C5: a rank-2 images array is rejected with the
shape-mismatch error class before allocation. -/
theorem C5_witness :
    ((⟨[2, 2], .u16 [1, 2, 3, 4]⟩ : NDArray).ndim ≠ 3) ∧
    masked_histogram (fun _ => 0) ⟨[2, 2], .u16 [1, 2, 3, 4]⟩ ⟨[2, 2], .u16 [1, 0, 0, 1]⟩
      = ⟨.error (.indexError ("expected ndim=3 images array")), false⟩ :=
  ⟨by decide,
    (C5_fail_fast.1 (fun _ => 0) ⟨[2, 2], .u16 [1, 2, 3, 4]⟩ ⟨[2, 2], .u16 [1, 0, 0, 1]⟩).1
      (by decide)⟩

/-- C2 counterexample: the claim "entry `i` equals the exact mathematical
sum of `frames[i][y][x] * mask[y][x]`, and the accumulation does not wrap
for any input whose exact sum is below `2 ^ 64`" fails on the code.  The C
product multiplies two `uint16` values after promotion to 32-bit signed
`int`; at `frames = [[[65535]]]`, `mask = [[65535]]` the product
`65535 * 65535 = 4294836225` overflows `int` (wrapping to `-131071`), and
its conversion to `npy_uint64` yields `2 ^ 64 - 131071`, although the exact
sum `4294836225` is far below `2 ^ 64`. -/
theorem C2_counterexample :
    (masked_sum (fun _ => 0) ⟨[1, 1, 1], .u16 [65535]⟩ ⟨[1, 1], .u16 [65535]⟩).result
      = .ok [18446744073709420545] ∧
    specFrameSum [65535] [65535] 1 1 0 = 4294836225 ∧
    (18446744073709420545 : Nat) ≠ 4294836225 := by
  refine ⟨by decide, by decide, by norm_num⟩

/-- C2 as amended: `masked_sum` returns the freshly zeroed uint64 array of
length `N` whose entry `i` is the exact sum `∑ frames[i][y][x] * mask[y][x]`
(mask entries acting as multiplicative weights, so a mask value of 2 or more
scales that pixel's contribution) PROVIDED every per-pixel product stays
below `2 ^ 31` — so the promoted 32-bit `int` multiplication cannot
overflow — and each frame's exact sum stays below `2 ^ 64`. -/
theorem C2_masked_sum_exact (g : Nat → Nat) (N H W : Nat) (d m : List Nat)
    (hprod : ∀ i < N, ∀ j < H, ∀ k < W, pix3 d H W i j k * mask2 m W j k < 2 ^ 31)
    (hsum : ∀ i < N, specFrameSum d m H W i < 2 ^ 64) :
    masked_sum g ⟨[N, H, W], .u16 d⟩ ⟨[H, W], .u16 m⟩
      = ⟨.ok ((List.range N).map fun i => specFrameSum d m H W i), true⟩ := by
  rw [masked_sum_ok g N H W d m]
  have hfun : (List.range N).map (fun i => specWrapSum d m H W i % 2 ^ 64)
      = (List.range N).map fun i => specFrameSum d m H W i := by
    apply List.map_congr_left
    intro i hi
    have hiN : i < N := List.mem_range.1 hi
    have hwrap : specWrapSum d m H W i = specFrameSum d m H W i := by
      unfold specWrapSum specFrameSum
      refine Finset.sum_congr rfl fun j hj => Finset.sum_congr rfl fun k hk => ?_
      unfold cMulWrap
      rw [if_pos (hprod i hiN j (Finset.mem_range.1 hj) k (Finset.mem_range.1 hk))]
    rw [hwrap, Nat.mod_eq_of_lt (hsum i hiN)]
  rw [hfun]

/-- Witness for C2 at the documentation's own example: a single 2x2 frame
`[[1,2],[3,4]]` with mask `[[1,0],[0,1]]` sums to `[5]`. -/
theorem C2_witness :
    (∀ i < 1, ∀ j < 2, ∀ k < 2,
      pix3 [1, 2, 3, 4] 2 2 i j k * mask2 [1, 0, 0, 1] 2 j k < 2 ^ 31) ∧
    (∀ i < 1, specFrameSum [1, 2, 3, 4] [1, 0, 0, 1] 2 2 i < 2 ^ 64) ∧
    masked_sum (fun _ => 0) ⟨[1, 2, 2], .u16 [1, 2, 3, 4]⟩ ⟨[2, 2], .u16 [1, 0, 0, 1]⟩
      = ⟨.ok [5], true⟩ := by
  refine ⟨by decide, by decide, ?_⟩
  have h := C2_masked_sum_exact (fun _ => 0) 1 2 2 [1, 2, 3, 4] [1, 0, 0, 1]
    (by decide) (by decide)
  rw [show ((List.range 1).map fun i => specFrameSum [1, 2, 3, 4] [1, 0, 0, 1] 2 2 i)
    = [5] from by decide] at h
  exact h

theorem toRat_scaled (c : ℤ) : F32.toRat (some (c * 2 ^ 149)) = some ((c : ℚ)) := by
  simp only [F32.toRat]
  refine congrArg some ?_
  rw [Int.cast_mul, Int.cast_pow]
  have h2 : ((2 : ℤ) : ℚ) = 2 := by norm_num
  rw [h2, mul_div_assoc, div_self (by positivity : ((2 : ℚ) ^ 149) ≠ 0), mul_one]

/-- C3 as amended: with every norm value exactly 1.0, `normed_sum` returns
the exact unweighted pixel-wise sum of the frames PROVIDED every per-pixel
total stays at or below `2 ^ 24` (the range in which binary32 represents
every integer and the accumulation is exact); each returned cell denotes
exactly the rational (integer) value of that sum. -/
theorem C3_normed_sum_exact (g : Nat × Nat → F32) (N H W : Nat) (d : List Nat)
    (hd : ∀ x ∈ d, x < 65536)
    (htot : ∀ j < H, ∀ k < W, specCellSum d N H W j k ≤ 2 ^ 24) :
    normed_sum g ⟨[N, H, W], .u16 d⟩ ⟨[N], .f32 (List.replicate N (some (2 ^ 149)))⟩
      = ⟨.ok ((List.range H).map fun j => (List.range W).map fun k =>
          some ((specCellSum d N H W j k : ℤ) * 2 ^ 149)), true⟩ ∧
    (∀ j k : Nat, F32.toRat (some ((specCellSum d N H W j k : ℤ) * 2 ^ 149))
      = some ((specCellSum d N H W j k : ℚ))) := by
  constructor
  · rw [normed_sum_ok g N H W d (List.replicate N (some (2 ^ 149)))]
    have hfun : ((List.range H).map fun j => (List.range W).map fun k =>
        (List.range N).foldl
          (fun a i => fadd a (fdiv (u16ToF32 (pix3 d H W i j k))
            ((List.replicate N (some (2 ^ 149))).getD i none)))
          (some 0))
        = (List.range H).map fun j => (List.range W).map fun k =>
            some ((specCellSum d N H W j k : ℤ) * 2 ^ 149) := by
      apply List.map_congr_left
      intro j hjm
      apply List.map_congr_left
      intro k hkm
      have hj : j < H := List.mem_range.1 hjm
      have hk : k < W := List.mem_range.1 hkm
      have h0 : (some (0 : ℤ) : F32) = some (((0 : Nat) : ℤ) * 2 ^ 149) := by norm_num
      rw [h0]
      rw [normedFold_exact (fun i => pix3 d H W i j k)
        (fun i => (List.replicate N (some (2 ^ 149))).getD i none) (List.range N) 0
        (by
          intro i hi
          show (List.replicate N (some (2 ^ 149))).getD i none = some (2 ^ 149)
          rw [List.getD_eq_getElem?_getD,
            List.getElem?_replicate_of_lt (List.mem_range.1 hi)]
          rfl)
        (fun i _ => pix3_lt hd H W i j k)
        (by
          rw [Nat.zero_add, sum_range_map]
          exact htot j hj k hk)]
      rw [Nat.zero_add, sum_range_map]
      rfl
    rw [hfun]
  · intro j k
    rw [toRat_scaled]
    refine congrArg some ?_
    push_cast
    rfl

/-- Witness for C3 at the documentation's example: two 1x1 frames `[5]` and
`[7]` with norms 1.0 give the image `[[12.0]]`. -/
theorem C3_witness :
    (∀ x ∈ [5, 7], x < 65536) ∧
    (∀ j < 1, ∀ k < 1, specCellSum [5, 7] 2 1 1 j k ≤ 2 ^ 24) ∧
    normed_sum (fun _ => none) ⟨[2, 1, 1], .u16 [5, 7]⟩
        ⟨[2], .f32 (List.replicate 2 (some (2 ^ 149)))⟩
      = ⟨.ok [[some (12 * 2 ^ 149)]], true⟩ := by
  refine ⟨by decide, by decide, ?_⟩
  have h := (C3_normed_sum_exact (fun _ => none) 2 1 1 [5, 7] (by decide) (by decide)).1
  rw [show ((List.range 1).map fun j => (List.range 1).map fun k =>
    some ((specCellSum [5, 7] 2 1 1 j k : ℤ) * 2 ^ 149)) = [[some (12 * 2 ^ 149)]]
    from by decide] at h
  exact h

/-- C3 counterexample: the claim also asserts that with all norm values 1.0
the result equals the unweighted pixel-wise sum for EVERY valid input; this
fails once a per-pixel total crosses `2 ^ 24`, where binary32 can no longer
represent every integer.  With 257 one-pixel frames of value 65535 the
exact sum is `257 * 65535 = 16842495`, which is odd and falls exactly
between the two adjacent binary32 values; the accumulation rounds the last
addition to even, returning 16842496. -/
theorem C3_counterexample :
    (normed_sum (fun _ => none) ⟨[257, 1, 1], .u16 (List.replicate 257 65535)⟩
      ⟨[257], .f32 (List.replicate 257 (some (2 ^ 149)))⟩).result
      = .ok [[some (16842496 * 2 ^ 149)]] ∧
    specCellSum (List.replicate 257 65535) 257 1 1 0 0 = 16842495 ∧
    F32.toRat (some (16842496 * 2 ^ 149)) ≠ some ((16842495 : ℚ)) := by
  refine ⟨?_, by decide, ?_⟩
  · rw [normed_sum_ok (fun _ => none) 257 1 1 (List.replicate 257 65535)
      (List.replicate 257 (some (2 ^ 149)))]
    show Except.ok [[(List.range 257).foldl
      (fun a i => fadd a (fdiv (u16ToF32 (pix3 (List.replicate 257 65535) 1 1 i 0 0))
        ((List.replicate 257 (some (2 ^ 149))).getD i none)))
      (some 0)]] = _
    have hd257 : ∀ x ∈ List.replicate 257 65535, x < 65536 := by
      intro x hx
      rw [List.eq_of_mem_replicate hx]
      norm_num
    have hpv : ∀ i ∈ List.range 256, pix3 (List.replicate 257 65535) 1 1 i 0 0
        = (fun _ : Nat => 65535) i := by
      intro i hi
      have hi' : i < 256 := List.mem_range.1 hi
      show (List.replicate 257 65535).getD (i * (1 * 1) + 0 * 1 + 0) 0 = 65535
      rw [show i * (1 * 1) + 0 * 1 + 0 = i by ring]
      rw [List.getD_eq_getElem?_getD, List.getElem?_replicate_of_lt (by omega : i < 257)]
      rfl
    have hsum256 : ((List.range 256).map fun i =>
        pix3 (List.replicate 257 65535) 1 1 i 0 0).sum = 16776960 := by
      rw [List.map_congr_left hpv, map_range_const, List.sum_const_nat]
    have hsplit : List.range 257 = List.range 256 ++ [256] := List.range_succ 256
    rw [hsplit, List.foldl_append]
    have h0 : (some (0 : ℤ) : F32) = some (((0 : Nat) : ℤ) * 2 ^ 149) := by norm_num
    rw [h0]
    rw [normedFold_exact (fun i => pix3 (List.replicate 257 65535) 1 1 i 0 0)
      (fun i => (List.replicate 257 (some (2 ^ 149))).getD i none) (List.range 256) 0
      (by
        intro i hi
        have hi' : i < 256 := List.mem_range.1 hi
        show (List.replicate 257 (some (2 ^ 149))).getD i none = some (2 ^ 149)
        rw [List.getD_eq_getElem?_getD,
          List.getElem?_replicate_of_lt (by omega : i < 257)]
        rfl)
      (fun i _ => pix3_lt hd257 1 1 i 0 0)
      (by
        rw [Nat.zero_add, hsum256]
        norm_num)]
    rw [Nat.zero_add, hsum256]
    decide
  · rw [toRat_scaled]
    norm_num

/-- C4: the historical `normed_stack` does NOT return the per-frame
normalized stack: it allocates its output with `PyArray_Empty` (leaving the
buffer uninitialised) and then accumulates with `+=`, so every entry is
`garbage + frames[i][y][x] / norm_values[i]` instead of
`frames[i][y][x] / norm_values[i]`.  With garbage 1.0 in the buffer, one
1x1 frame of value 5 and norm 1.0 the entry comes out as 6.0, not the
claimed 5.0 — contradicting the function's own docstring ("normalize stack
of images"); summing it along the frame axis does not reproduce
`normed_sum` either. -/
theorem C4_normed_stack_bug :
    (normed_stack (fun _ => some (2 ^ 149)) ⟨[1, 1, 1], .u16 [5]⟩
      ⟨[1], .f32 [some (2 ^ 149)]⟩).result = .ok [[[some (6 * 2 ^ 149)]]] ∧
    F32.toRat (some (6 * 2 ^ 149)) = some ((6 : ℚ)) ∧
    F32.toRat (some (5 * 2 ^ 149)) = some ((5 : ℚ)) ∧
    (6 : ℚ) ≠ 5 := by
  refine ⟨by decide, ?_, ?_, by norm_num⟩
  · rw [toRat_scaled]
    norm_num
  · rw [toRat_scaled]
    norm_num
